import Mathlib

/-!
Verification of the `@tgsnake/redis-session` repository against its
specification.  The development shallowly embeds `src/RedisSession.ts`:
byte buffers are lists of byte values (`Nat`), JS `bigint`/`number`
integers are `Int` with explicit two's-complement reduction at the codec
boundary, JS strings are lists of character codes, fallible decoding
returns `Option`, and the Redis store is an association list of entries
threaded through the session operations.

The primitive codec (`Raws.Primitive.Int/Long/String/Bytes/Bool/Float/
Vector` of `@tgsnake/core`) is an external dependency of the repository;
the spec (section 2, item 1) treats it as a given building block:
fixed-width integer, length-prefixed string/bytes, boolean, float and
typed-vector codecs over a cursor.  It is modelled here from that
description.
-/

/-- A byte buffer: the shallow embedding of a Node `Buffer`, one `Nat`
(value `0..255`) per byte. -/
abbrev Bytes := List Nat

/-- Character codes of a Lean string literal, used to embed the JS string
literals of the source. -/
def strLit (s : String) : Bytes :=
  s.data.map Char.toNat

/-- Little-endian fixed-width encoding: `k` bytes of `n` (mod `2^(8*k)`). -/
def toBytesLE : Nat → Nat → Bytes
  | 0, _ => []
  | k + 1, n => (n % 256) :: toBytesLE k (n / 256)

/-- Little-endian decoding of a byte list back to a `Nat`. -/
def fromBytesLE : Bytes → Nat
  | [] => 0
  | b :: bs => b + 256 * fromBytesLE bs

/-- Reading a fixed number of bytes from the front of a buffer; fails when
the buffer is too short (the cursor of the primitive codec). -/
def takeBytes (k : Nat) (s : Bytes) : Option (Bytes × Bytes) :=
  if s.length < k then none else some (s.take k, s.drop k)

/-- Sequencing of a fallible read with its continuation (the decoder
loops of the source run the next read only when the previous one
produced a value). -/
def obind (x : Option (α × Bytes)) (f : α × Bytes → Option β) : Option β :=
  match x with
  | none => none
  | some a => f a

namespace Prim

/-- Modelled from the spec: two's-complement raw value of a signed integer
at width `w` (a power of two). -/
def rawOf (w n : Int) : Nat := (n % w).toNat

/-- Modelled from the spec: signed reading of a raw value at width `w`
(two's complement). -/
def signedOf (w : Int) (m : Nat) : Int :=
  if (m : Int) < w / 2 then (m : Int) else (m : Int) - w

/-- Modelled from the spec: `Raws.Primitive.Int.write`, a fixed-width
32-bit little-endian integer. -/
def intWrite (n : Int) : Bytes := toBytesLE 4 (rawOf 4294967296 n)

/-- Modelled from the spec: `Raws.Primitive.Int.read`. -/
def intRead (s : Bytes) : Option (Int × Bytes) :=
  (takeBytes 4 s).map fun p => (signedOf 4294967296 (fromBytesLE p.1), p.2)

/-- Modelled from the spec: `Raws.Primitive.Long.write`, a fixed-width
64-bit little-endian integer. -/
def longWrite (n : Int) : Bytes := toBytesLE 8 (rawOf 18446744073709551616 n)

/-- Modelled from the spec: `Raws.Primitive.Long.read`. -/
def longRead (s : Bytes) : Option (Int × Bytes) :=
  (takeBytes 8 s).map fun p => (signedOf 18446744073709551616 (fromBytesLE p.1), p.2)

/-- Modelled from the spec: `Raws.Primitive.Bytes.write`, length-prefixed
raw bytes. -/
def bytesWrite (b : Bytes) : Bytes := toBytesLE 4 b.length ++ b

/-- Modelled from the spec: `Raws.Primitive.Bytes.read`. -/
def bytesRead (s : Bytes) : Option (Bytes × Bytes) := do
  let (lenB, s) ← takeBytes 4 s
  takeBytes (fromBytesLE lenB) s

/-- Modelled from the spec: `Raws.Primitive.String.write`, a
length-prefixed string (strings are byte lists here). -/
def strWrite (b : Bytes) : Bytes := bytesWrite b

/-- Modelled from the spec: `Raws.Primitive.String.read`. -/
def strRead (s : Bytes) : Option (Bytes × Bytes) := bytesRead s

/-- Modelled from the spec: `Raws.Primitive.Bool.write`, a fixed-width
boolean codec writing one 32-bit word, with two distinct constants for
`true` and `false` (modelled as `1` and `0`). -/
def boolWrite (b : Bool) : Bytes :=
  toBytesLE 4 (if b then 1 else 0)

/-- Modelled from the spec: `Raws.Primitive.Bool.read`. -/
def boolRead (s : Bytes) : Option (Bool × Bytes) := do
  let (w, s) ← takeBytes 4 s
  if fromBytesLE w = 1 then some (true, s)
  else if fromBytesLE w = 0 then some (false, s)
  else none

/-- Modelled from the spec: `Raws.Primitive.Float.write`.  The external
float primitive is an 8-byte fixed-width codec for the timestamp values
`created`/`changed`; its value domain is modelled as `Nat` below `2^64`
and the codec as a faithful 8-byte encoding. -/
def floatWrite (v : Nat) : Bytes := toBytesLE 8 v

/-- Modelled from the spec: `Raws.Primitive.Float.read`. -/
def floatRead (s : Bytes) : Option (Nat × Bytes) :=
  (takeBytes 8 s).map fun p => (fromBytesLE p.1, p.2)

/-- Modelled from the spec: `Raws.Primitive.Vector.write` at element type
`String`, a count-prefixed sequence of length-prefixed strings. -/
def vecStrWrite (l : List Bytes) : Bytes :=
  toBytesLE 4 l.length ++ l.flatMap strWrite

/-- The 32-bit signed range accepted by the `Int` primitive. -/
def int32Ok (n : Int) : Prop := -2147483648 ≤ n ∧ n < 2147483648

/-- The 64-bit signed range accepted by the `Long` primitive. -/
def int64Ok (n : Int) : Prop := -9223372036854775808 ≤ n ∧ n < 9223372036854775808

instance (n : Int) : Decidable (int32Ok n) := by unfold int32Ok; infer_instance

instance (n : Int) : Decidable (int64Ok n) := by unfold int64Ok; infer_instance

end Prim

/-- A peer record as passed to `buildBytesFromPeer`
(`[id, accessHash, type, username?, phoneNumber?]` in the source, with
`username` an optional array of strings and `phoneNumber` an optional
string; strings are byte lists). -/
structure PeerRecord where
  id : Int
  accessHash : Int
  kind : Bytes
  usernames : Option (List Bytes)
  phoneNumber : Option Bytes
deriving DecidableEq, Repr

/-- JS truthiness of `peer[3] && peer[3].length`: present and non-empty. -/
def usernamesTruthy : Option (List Bytes) → Bool
  | some (_ :: _) => true
  | _ => false

/-- JS truthiness of an optional string (`undefined` and `""` are falsy). -/
def strTruthy : Option Bytes → Bool
  | some (_ :: _) => true
  | _ => false

/-- The flags word computed by `buildBytesFromPeer` (RedisSession.ts
lines 290-296): bit 4 for a non-empty usernames array, bit 5 for a
truthy phone number. -/
def peerFlags (r : PeerRecord) : Nat :=
  (if usernamesTruthy r.usernames then 16 else 0) +
  (if strTruthy r.phoneNumber then 32 else 0)

/-- Embeds `buildBytesFromPeer` (RedisSession.ts lines 280-308): the
flags word, `id`, `accessHash`, `type`, then conditionally the username
vector and the phone string, prefixed by the version marker byte `2`. -/
def buildBytesFromPeer (r : PeerRecord) : Bytes :=
  2 :: List.flatten
    [ Prim.intWrite (peerFlags r),
      Prim.longWrite r.id,
      Prim.longWrite r.accessHash,
      Prim.strWrite r.kind,
      if usernamesTruthy r.usernames then Prim.vecStrWrite (r.usernames.getD []) else [],
      if strTruthy r.phoneNumber then Prim.strWrite (r.phoneNumber.getD []) else [] ]

/-- A value pushed into the heterogeneous `results` array by
`buildPeerFromBytes` after the three fixed slots: either a plain string
(the versioned branch and the phone slot) or an array of strings (the
legacy branch wraps its single username). -/
inductive PeerField where
  | str (s : Bytes)
  | strList (l : List Bytes)
deriving DecidableEq, Repr

/-- The decode result of `buildPeerFromBytes`: the three fixed slots and
the list of optionally pushed values, in push order. -/
structure DecodedPeer where
  id : Int
  accessHash : Int
  kind : Bytes
  fields : List PeerField
deriving DecidableEq, Repr

/-- JS 32-bit bitwise test `flags & (1 << k)`, on the signed int read
back from the buffer (two's complement). -/
def jsBitTest (flags : Int) (k : Nat) : Bool :=
  ((flags % 4294967296).toNat).testBit k

/-- The versioned branch of `buildPeerFromBytes` (RedisSession.ts lines
320-331), applied after the marker byte was stripped: flags, id,
accessHash, kind, then on bit 4 a push of `String.read` (not a vector
read, and not wrapped in an array), then on bit 5 a push of
`String.read`. -/
def v2PeerDecode (bs : Bytes) : Option DecodedPeer :=
  obind (Prim.intRead bs) fun p0 =>
  obind (Prim.longRead p0.2) fun p1 =>
  obind (Prim.longRead p1.2) fun p2 =>
  obind (Prim.strRead p2.2) fun p3 =>
  obind (if jsBitTest p0.1 4 then
      (Prim.strRead p3.2).map fun p => ([PeerField.str p.1], p.2)
    else some ([], p3.2)) fun q4 =>
  obind (if jsBitTest p0.1 5 then
      (Prim.strRead q4.2).map fun p => ([PeerField.str p.1], p.2)
    else some ([], q4.2)) fun q5 =>
  some ⟨p1.1, p2.1, p3.1, q4.1 ++ q5.1⟩

/-- The legacy branch of `buildPeerFromBytes` (RedisSession.ts lines
332-344), starting at byte 0 (no marker byte is consumed): flags, id,
accessHash, kind, then on bit 4 a push of `[String.read]` (a one-element
array), then on bit 5 a push of `String.read`. -/
def legacyPeerDecode (bs : Bytes) : Option DecodedPeer :=
  obind (Prim.intRead bs) fun p0 =>
  obind (Prim.longRead p0.2) fun p1 =>
  obind (Prim.longRead p1.2) fun p2 =>
  obind (Prim.strRead p2.2) fun p3 =>
  obind (if jsBitTest p0.1 4 then
      (Prim.strRead p3.2).map fun p => ([PeerField.strList [p.1]], p.2)
    else some ([], p3.2)) fun q4 =>
  obind (if jsBitTest p0.1 5 then
      (Prim.strRead q4.2).map fun p => ([PeerField.str p.1], p.2)
    else some ([], q4.2)) fun q5 =>
  some ⟨p1.1, p2.1, p3.1, q4.1 ++ q5.1⟩

/-- Embeds `buildPeerFromBytes` (RedisSession.ts lines 313-352): the
versioned branch when the leading byte is the marker `2` (stripping it),
the legacy branch otherwise. -/
def buildPeerFromBytes (bs : Bytes) : Option DecodedPeer :=
  if bs.head? = some 2 then v2PeerDecode (bs.drop 1) else legacyPeerDecode bs

/-- The property `decode(encode(r)) == r` for the peer codec, with the
decoded heterogeneous array compared positionally against the input
tuple the way the source's callers index it: `results[3]` must be the
usernames array and `results[4]` the phone string. -/
def PeerRoundTrips (r : PeerRecord) : Prop :=
  match buildPeerFromBytes (buildBytesFromPeer r) with
  | none => False
  | some d => d.id = r.id ∧ d.accessHash = r.accessHash ∧ d.kind = r.kind ∧
      d.fields[0]? = r.usernames.map PeerField.strList ∧
      d.fields[1]? = r.phoneNumber.map PeerField.str

instance (r : PeerRecord) : Decidable (PeerRoundTrips r) := by
  unfold PeerRoundTrips
  exact match buildPeerFromBytes (buildBytesFromPeer r) with
    | none => inferInstanceAs (Decidable False)
    | some d => inferInstanceAs (Decidable (_ ∧ _ ∧ _ ∧ _ ∧ _))

/-- The peer of the spec's running example, with a single username. -/
def peerEx1 : PeerRecord :=
  { id := 123, accessHash := 456, kind := strLit "user",
    usernames := some [strLit "alice"], phoneNumber := none }

/-- A secret chat record (`Storages.SecretChat` of the host framework):
required core fields, protocol counters, float timestamps, and the four
optional fields; an absent optional is `none` and decode leaves it
unset. -/
structure SecretChat where
  id : Int
  accessHash : Int
  isAdmin : Bool
  authKey : Bytes
  mtproto : Int
  layer : Int
  inSeqNo : Int
  outSeqNo : Int
  inSeqNoX : Int
  outSeqNoX : Int
  timeRekey : Int
  created : Nat
  changed : Nat
  rekeyStep : Option Int
  rekeyExchange : Option Int
  adminId : Option Int
  ttl : Option Int
deriving DecidableEq, Repr

/-- JS truthiness of an optional numeric field: absent (`undefined`) and
`0` are falsy. -/
def intTruthy : Option Int → Bool
  | none => false
  | some v => v != 0

/-- The flags word computed by `buildBytesFromSecretChat`
(RedisSession.ts lines 356-368): bit 3 for `rekeyStep`, bit 4 for
`rekeyExchange`, bit 5 for `adminId`, bit 6 for `ttl`, each set when the
field is truthy. -/
def scFlags (c : SecretChat) : Int :=
  (if intTruthy c.rekeyStep then 8 else 0) +
  ((if intTruthy c.rekeyExchange then 16 else 0) +
    ((if intTruthy c.adminId then 32 else 0) +
      (if intTruthy c.ttl then 64 else 0)))

/-- Embeds `buildBytesFromSecretChat` (RedisSession.ts lines 354-396):
flags, then the required fields in declared order, then each truthy
optional field in flag-bit order. -/
def buildBytesFromSecretChat (c : SecretChat) : Bytes :=
  List.flatten
    [ Prim.intWrite (scFlags c),
      Prim.intWrite c.id,
      Prim.longWrite c.accessHash,
      Prim.boolWrite c.isAdmin,
      Prim.bytesWrite c.authKey,
      Prim.intWrite c.mtproto,
      Prim.intWrite c.layer,
      Prim.intWrite c.inSeqNo,
      Prim.intWrite c.outSeqNo,
      Prim.intWrite c.inSeqNoX,
      Prim.intWrite c.outSeqNoX,
      Prim.intWrite c.timeRekey,
      Prim.floatWrite c.created,
      Prim.floatWrite c.changed,
      if intTruthy c.rekeyStep then Prim.intWrite (c.rekeyStep.getD 0) else [],
      if intTruthy c.rekeyExchange then Prim.longWrite (c.rekeyExchange.getD 0) else [],
      if intTruthy c.adminId then Prim.longWrite (c.adminId.getD 0) else [],
      if intTruthy c.ttl then Prim.intWrite (c.ttl.getD 0) else [] ]

/-- Embeds `buildSecretChatFromBytes` (RedisSession.ts lines 397-432):
flags, required fields in the same order, then each optional field read
exactly when its flag bit is set, in the same order. -/
def buildSecretChatFromBytes (bs : Bytes) : Option SecretChat :=
  obind (Prim.intRead bs) fun p0 =>
  obind (Prim.intRead p0.2) fun p1 =>
  obind (Prim.longRead p1.2) fun p2 =>
  obind (Prim.boolRead p2.2) fun p3 =>
  obind (Prim.bytesRead p3.2) fun p4 =>
  obind (Prim.intRead p4.2) fun p5 =>
  obind (Prim.intRead p5.2) fun p6 =>
  obind (Prim.intRead p6.2) fun p7 =>
  obind (Prim.intRead p7.2) fun p8 =>
  obind (Prim.intRead p8.2) fun p9 =>
  obind (Prim.intRead p9.2) fun p10 =>
  obind (Prim.intRead p10.2) fun p11 =>
  obind (Prim.floatRead p11.2) fun p12 =>
  obind (Prim.floatRead p12.2) fun p13 =>
  obind (if jsBitTest p0.1 3 then
      (Prim.intRead p13.2).map fun p => (some p.1, p.2)
    else some (none, p13.2)) fun q3 =>
  obind (if jsBitTest p0.1 4 then
      (Prim.longRead q3.2).map fun p => (some p.1, p.2)
    else some (none, q3.2)) fun q4 =>
  obind (if jsBitTest p0.1 5 then
      (Prim.longRead q4.2).map fun p => (some p.1, p.2)
    else some (none, q4.2)) fun q5 =>
  obind (if jsBitTest p0.1 6 then
      (Prim.intRead q5.2).map fun p => (some p.1, p.2)
    else some (none, q5.2)) fun q6 =>
  some { id := p1.1, accessHash := p2.1, isAdmin := p3.1, authKey := p4.1,
         mtproto := p5.1, layer := p6.1, inSeqNo := p7.1, outSeqNo := p8.1,
         inSeqNoX := p9.1, outSeqNoX := p10.1, timeRekey := p11.1,
         created := p12.1, changed := p13.1,
         rekeyStep := q3.1, rekeyExchange := q4.1, adminId := q5.1,
         ttl := q6.1 }

/-- Validity of an optional 32-bit field: absent, or in range and
nonzero (a present zero is indistinguishable from absent under the
falsy-skipping encoder). -/
def optInt32Truthy : Option Int → Prop
  | none => True
  | some v => Prim.int32Ok v ∧ v ≠ 0

/-- Validity of an optional 64-bit field. -/
def optInt64Truthy : Option Int → Prop
  | none => True
  | some v => Prim.int64Ok v ∧ v ≠ 0

instance : (o : Option Int) → Decidable (optInt32Truthy o)
  | none => inferInstanceAs (Decidable True)
  | some _ => inferInstanceAs (Decidable (_ ∧ _))

instance : (o : Option Int) → Decidable (optInt64Truthy o)
  | none => inferInstanceAs (Decidable True)
  | some _ => inferInstanceAs (Decidable (_ ∧ _))

/-- A valid secret chat record: every numeric field within the width of
the primitive that carries it, and optional fields absent or nonzero. -/
def SecretChatValid (c : SecretChat) : Prop :=
  Prim.int32Ok c.id ∧ Prim.int64Ok c.accessHash ∧
  c.authKey.length < 4294967296 ∧
  Prim.int32Ok c.mtproto ∧ Prim.int32Ok c.layer ∧
  Prim.int32Ok c.inSeqNo ∧ Prim.int32Ok c.outSeqNo ∧
  Prim.int32Ok c.inSeqNoX ∧ Prim.int32Ok c.outSeqNoX ∧
  Prim.int32Ok c.timeRekey ∧
  c.created < 18446744073709551616 ∧ c.changed < 18446744073709551616 ∧
  optInt32Truthy c.rekeyStep ∧ optInt64Truthy c.rekeyExchange ∧
  optInt64Truthy c.adminId ∧ optInt32Truthy c.ttl

instance (c : SecretChat) : Decidable (SecretChatValid c) := by
  unfold SecretChatValid
  infer_instance

/-- An entry of the Redis store: key, value, and the expiry passed to the
SET call (`EX` seconds, or none for no expiry). -/
structure Entry where
  key : Bytes
  val : Bytes
  exp : Option Nat
deriving DecidableEq, Repr

/-- The Redis key space, in insertion order (scans traverse this order). -/
abbrev Store := List Entry

/-- Redis SET: overwrite the value and expiry under an existing key, or
append a new entry (embeds the `_set` helper, RedisSession.ts lines
255-263). -/
def storeSet (st : Store) (k v : Bytes) (e : Option Nat) : Store :=
  match st with
  | [] => [⟨k, v, e⟩]
  | ent :: rest => if ent.key = k then ⟨k, v, e⟩ :: rest else ent :: storeSet rest k v e

/-- Redis GET: the value stored under a key, if any. -/
def storeGet (st : Store) (k : Bytes) : Option Bytes :=
  match st with
  | [] => none
  | ent :: rest => if ent.key = k then some ent.val else storeGet rest k

/-- The full entry stored under a key, if any (value and expiry). -/
def storeGetEntry (st : Store) (k : Bytes) : Option Entry :=
  match st with
  | [] => none
  | ent :: rest => if ent.key = k then some ent else storeGetEntry rest k

/-- The construction-time configuration of a `RedisSession`: session
name, delimiter (default `:`), and the two TTL classes. -/
structure SessionCfg where
  sessionName : Bytes
  sessionDelim : Bytes
  peerExp : Option Nat
  sessionExp : Option Nat

/-- The mutable state of a `RedisSession` instance: the backing store,
the lazy-connection flag, and the in-memory mirror fields inherited from
`BaseSession` (each `none` until assigned). -/
structure SessionState where
  store : Store
  connected : Bool
  dcId : Option Int
  ip : Option Bytes
  port : Option Int
  testMode : Option Bool
  authKey : Option Bytes
  apiId : Option Int
  userId : Option Int
  isBot : Option Bool
deriving DecidableEq, Repr

/-- A fresh session state: empty store, disconnected, no mirror fields. -/
def initialState : SessionState :=
  { store := [], connected := false, dcId := none, ip := none, port := none,
    testMode := none, authKey := none, apiId := none, userId := none,
    isBot := none }

/-- The key of a scalar session field:
`sessionName + sessionDelim + fieldName`. -/
def sessKey (cfg : SessionCfg) (field : Bytes) : Bytes :=
  cfg.sessionName ++ cfg.sessionDelim ++ field

/-- Decimal digits (char codes) of a natural number, as JS `String(n)`. -/
def natDecimal (n : Nat) : Bytes :=
  (Nat.toDigits 10 n).map Char.toNat

/-- Decimal rendering of a JS number/bigint, as JS `String(v)`. -/
def intDecimal (v : Int) : Bytes :=
  if v < 0 then 45 :: natDecimal v.natAbs else natDecimal v.toNat

/-- JS `String(x)` on a possibly-undefined number (`String(undefined)`
is the string `undefined`). -/
def strOfNullInt : Option Int → Bytes
  | none => strLit "undefined"
  | some v => intDecimal v

/-- JS `String(b)` on a boolean. -/
def strOfBool (b : Bool) : Bytes :=
  if b then strLit "true" else strLit "false"

/-- Lowercase hex digit of a nibble, as Node `toString('hex')`. -/
def hexDigit (n : Nat) : Nat := if n < 10 then 48 + n else 87 + n

/-- Node `buffer.toString('hex')`: two lowercase hex digits per byte. -/
def hexOfBytes (b : Bytes) : Bytes :=
  b.flatMap fun x => [hexDigit (x / 16), hexDigit (x % 16)]

/-- One hex digit back to its value, if valid. -/
def hexVal (c : Nat) : Option Nat :=
  if 48 ≤ c ∧ c ≤ 57 then some (c - 48)
  else if 97 ≤ c ∧ c ≤ 102 then some (c - 87)
  else if 65 ≤ c ∧ c ≤ 70 then some (c - 55)
  else none

/-- Node `Buffer.from(s, 'hex')`: consume hex-digit pairs, stopping at
the first invalid pair or dangling digit. -/
def bytesOfHex : Bytes → Bytes
  | c1 :: c2 :: rest =>
    match hexVal c1, hexVal c2 with
    | some h, some l => (16 * h + l) :: bytesOfHex rest
    | _, _ => []
  | _ => []

/-- The `_connect` helper: mark the lazy connection established
(RedisSession.ts lines 267-274). -/
def connectState (st : SessionState) : SessionState :=
  { st with connected := true }

/-- Embeds `setAddress` (RedisSession.ts lines 65-76): sets the
in-memory fields, applying `?? 2` and `?? 443` (nullish coalescing, not
falsy) to `dcId` and `port` only there, and persists the four scalar
fields as `String(...)` of the arguments as given, each with the
session-field TTL. -/
def setAddress (cfg : SessionCfg) (st : SessionState) (dcId : Option Int)
    (ip : Bytes) (port : Option Int) (testMode : Bool) : SessionState :=
  let st := connectState st
  let st := { st with dcId := some (dcId.getD 2), ip := some ip,
                      port := some (port.getD 443), testMode := some testMode }
  let st1 := storeSet st.store (sessKey cfg (strLit "dcId")) (strOfNullInt dcId)
    cfg.sessionExp
  let st2 := storeSet st1 (sessKey cfg (strLit "ip")) ip cfg.sessionExp
  let st3 := storeSet st2 (sessKey cfg (strLit "port")) (strOfNullInt port)
    cfg.sessionExp
  let st4 := storeSet st3 (sessKey cfg (strLit "testMode")) (strOfBool testMode)
    cfg.sessionExp
  { st with store := st4 }

/-- Embeds `setAuthKey` (RedisSession.ts lines 77-83): returns before
touching anything when the supplied `dcId` is not strictly equal to the
in-memory `_dcId`; otherwise connects, mirrors the key in memory and
persists it hex-encoded under the `authKey` field with the session TTL. -/
def setAuthKey (cfg : SessionCfg) (st : SessionState) (authKey : Bytes)
    (dcId : Int) : SessionState :=
  if st.dcId = some dcId then
    let st := connectState st
    let st := { st with authKey := some authKey }
    let written := storeSet st.store (sessKey cfg (strLit "authKey"))
      (hexOfBytes authKey) cfg.sessionExp
    { st with store := written }
  else st

/-- Embeds `delete` (RedisSession.ts lines 147-156): scan every key and
remove those starting with `sessionName + sessionDelim`. -/
def deleteSession (cfg : SessionCfg) (st : SessionState) : SessionState :=
  let st := connectState st
  let kept := st.store.filter fun ent =>
    !(cfg.sessionName ++ cfg.sessionDelim).isPrefixOf ent.key
  { st with store := kept }

/-- The key of a stored peer:
`sessionName + delim + peer + delim + id` (RedisSession.ts line 168). -/
def peerKey (cfg : SessionCfg) (id : Int) : Bytes :=
  cfg.sessionName ++ cfg.sessionDelim ++ strLit "peer" ++ cfg.sessionDelim ++
    intDecimal id

/-- The key of a stored secret chat:
`sessionName + delim + e2e + delim + id` (RedisSession.ts line 181). -/
def e2eKey (cfg : SessionCfg) (id : Int) : Bytes :=
  cfg.sessionName ++ cfg.sessionDelim ++ strLit "e2e" ++ cfg.sessionDelim ++
    intDecimal id

/-- Embeds `updatePeers` (RedisSession.ts lines 157-173): encode each
peer and store it hex-encoded under its per-id key with the peer TTL. -/
def updatePeers (cfg : SessionCfg) (st : SessionState)
    (peers : List PeerRecord) : SessionState :=
  let st := connectState st
  let written := peers.foldl
    (fun acc p =>
      storeSet acc (peerKey cfg p.id) (hexOfBytes (buildBytesFromPeer p))
        cfg.peerExp)
    st.store
  { st with store := written }

/-- Modelled from the spec: `Storages.getInputPeer` of the host
framework resolves the stored triple to an addressable peer; it is
modelled as the triple itself. -/
def getInputPeer (id accessHash : Int) (kind : Bytes) : Int × Int × Bytes :=
  (id, accessHash, kind)

/-- JS `toLowerCase` on one ASCII character code. -/
def lowerByte (c : Nat) : Nat :=
  if 65 ≤ c ∧ c ≤ 90 then c + 32 else c

/-- JS `toLowerCase` on a string of ASCII character codes. -/
def lowerBytes (s : Bytes) : Bytes := s.map lowerByte

/-- The loop body of `getPeerByUsername` over the scanned keys.  In the
source (RedisSession.ts line 211) the scan iterator is consumed with a
plain `for ... of`; the iteration is modelled here as traversing the
stored entries in order, the reading most favorable to the lookup
semantics the spec describes.  For each key under the peer namespace the
stored value is fetched, decoded, and the guard
`Array.isArray(peer[3]) && peer[3].includes(username.toLowerCase())`
(line 216) is evaluated: the third slot must be an array containing the
lowercased query verbatim. -/
def scanPeersByUsername (cfg : SessionCfg) (full : Store) (uname : Bytes) :
    List Entry → Option (Int × Int × Bytes)
  | [] => none
  | e :: rest =>
    if (cfg.sessionName ++ cfg.sessionDelim ++ strLit "peer").isPrefixOf e.key then
      match storeGet full e.key with
      | none => scanPeersByUsername cfg full uname rest
      | some bytes =>
        if bytes.isEmpty then scanPeersByUsername cfg full uname rest
        else
          match buildPeerFromBytes (bytesOfHex bytes) with
          | none => none
          | some d =>
            if (match d.fields[0]? with
                | some (PeerField.strList l) => l.contains (lowerBytes uname)
                | _ => false) then
              some (getInputPeer d.id d.accessHash d.kind)
            else scanPeersByUsername cfg full uname rest
    else scanPeersByUsername cfg full uname rest

/-- Embeds `getPeerByUsername` (RedisSession.ts lines 207-222), with the
scan iteration corrected as described on `scanPeersByUsername`. -/
def getPeerByUsername (cfg : SessionCfg) (st : SessionState) (uname : Bytes) :
    Option (Int × Int × Bytes) :=
  scanPeersByUsername cfg st.store uname st.store

/-- A JS value as it flows through the point lookups: the result of a
client `get` call that was not awaited is the promise object itself. -/
inductive JsVal where
  | promiseStr (v : Option Bytes)

/-- JS truthiness: a promise is an object and objects are truthy,
whatever they will resolve to. -/
def jsTruthy : JsVal → Bool
  | .promiseStr _ => true

/-- Node `Buffer.from(x, 'hex')` on such a value: a promise is neither a
string nor an array-like, so the call throws a `TypeError`. -/
def bufferFromHexVal : JsVal → Except Unit Bytes
  | .promiseStr _ => .error ()

/-- Embeds `getPeerById` (RedisSession.ts lines 197-206).  The client
`get` at line 201 is not awaited, so `bytes` holds the promise itself;
the truthiness guard at line 202 therefore always passes, and
`Buffer.from(bytes, 'hex')` at line 203 receives the promise and throws,
rejecting the call — for an absent key as for a present one. -/
def getPeerById (cfg : SessionCfg) (st : SessionState) (id : Int) :
    Except Unit (Option (Int × Int × Bytes)) :=
  let bytes := JsVal.promiseStr (storeGet st.store (peerKey cfg id))
  if jsTruthy bytes then
    match bufferFromHexVal bytes with
    | .error e => .error e
    | .ok buf =>
      match buildPeerFromBytes buf with
      | some d => .ok (some (getInputPeer d.id d.accessHash d.kind))
      | none => .error ()
  else .ok none

/-- Embeds `getSecretChatById` (RedisSession.ts lines 187-196), with the
same unawaited `get` at line 191: the guard sees the promise, always
proceeds, and `Buffer.from` at line 193 throws. -/
def getSecretChatById (cfg : SessionCfg) (st : SessionState) (id : Int) :
    Except Unit (Option SecretChat) :=
  let bytes := JsVal.promiseStr (storeGet st.store (e2eKey cfg id))
  if jsTruthy bytes then
    match bufferFromHexVal bytes with
    | .error e => .error e
    | .ok buf =>
      match buildSecretChatFromBytes buf with
      | some c => .ok (some c)
      | none => .error ()
  else .ok none

/-- A session configured with name `s` and the default delimiter `:`,
with no TTLs configured. -/
def cfgEx : SessionCfg := ⟨strLit "s", strLit ":", none, none⟩

/-- The peer of the spec's lookup example:
`[123n, 456n, "user", ["alice", "Bob"], undefined]`. -/
def peerEx2 : PeerRecord :=
  { id := 123, accessHash := 456, kind := strLit "user",
    usernames := some [strLit "alice", strLit "Bob"], phoneNumber := none }

/-- A concrete secret chat with all four optional fields present. -/
def scEx : SecretChat :=
  { id := 7, accessHash := 8, isAdmin := true, authKey := [9, 10, 11],
    mtproto := 2, layer := 73, inSeqNo := 1, outSeqNo := 2, inSeqNoX := 0,
    outSeqNoX := 1, timeRekey := 100, created := 11, changed := 12,
    rekeyStep := some 1, rekeyExchange := some 2, adminId := some 3,
    ttl := some 4 }

/-- A buffer in the legacy peer layout (no marker byte): flags with bit 4
set, id `1`, accessHash `2`, kind `u`, single username `a`. -/
def legacyEx : Bytes :=
  Prim.intWrite 16 ++ Prim.longWrite 1 ++ Prim.longWrite 2 ++
    Prim.strWrite (strLit "u") ++ Prim.strWrite (strLit "a")

/-- The decode of `legacyEx`: the single username comes back wrapped as a
one-element array. -/
def dLegacyEx : DecodedPeer :=
  ⟨1, 2, strLit "u", [PeerField.strList [strLit "a"]]⟩

/-- A store holding one key under session `s` and one under session
`s2`. -/
def stW : SessionState :=
  { initialState with store :=
      [⟨strLit "s:a", [121], none⟩,
       ⟨strLit "s2" ++ (strLit ":" ++ strLit "b"), [120], none⟩] }

theorem toBytesLE_length (k n : Nat) : (toBytesLE k n).length = k := by
  induction k generalizing n with
  | zero => rfl
  | succ k ih => simp [toBytesLE, ih]

theorem fromBytesLE_toBytesLE (k n : Nat) :
    fromBytesLE (toBytesLE k n) = n % 256 ^ k := by
  induction k generalizing n with
  | zero => simp [toBytesLE, fromBytesLE, Nat.mod_one]
  | succ k ih =>
    simp only [toBytesLE, fromBytesLE, ih]
    have h1 : 256 ^ (k + 1) = 256 * 256 ^ k := by ring
    rw [h1]
    have h2 : n % (256 * 256 ^ k) / 256 = n / 256 % 256 ^ k :=
      Nat.mod_mul_right_div_self n 256 (256 ^ k)
    have h3 : n % (256 * 256 ^ k) % 256 = n % 256 :=
      Nat.mod_mod_of_dvd n ⟨256 ^ k, rfl⟩
    have h4 := Nat.div_add_mod (n % (256 * 256 ^ k)) 256
    omega

theorem takeBytes_append {k : Nat} {xs : Bytes} (rest : Bytes)
    (h : xs.length = k) : takeBytes k (xs ++ rest) = some (xs, rest) := by
  simp [takeBytes, List.take_left' h, List.drop_left' h, h]

theorem obind_some (a : α × Bytes) (f : α × Bytes → Option β) :
    obind (some a) f = f a := rfl

theorem obind_none (f : α × Bytes → Option β) : obind none f = none := rfl

namespace Prim

theorem intRead_intWrite {n : Int} (h : int32Ok n) (rest : Bytes) :
    intRead (intWrite n ++ rest) = some (n, rest) := by
  obtain ⟨h1, h2⟩ := h
  rw [intWrite, intRead, takeBytes_append rest (toBytesLE_length 4 _),
    Option.map_some']
  simp only [fromBytesLE_toBytesLE, rawOf]
  have hpow : (256 : Nat) ^ 4 = 4294967296 := by norm_num
  rw [hpow]
  have hm : (0 : Int) ≤ n % 4294967296 := Int.emod_nonneg n (by decide)
  have hm2 : n % 4294967296 < 4294967296 := Int.emod_lt_of_pos n (by decide)
  have hsmall : (n % 4294967296).toNat % 4294967296 = (n % 4294967296).toNat :=
    Nat.mod_eq_of_lt (by omega)
  rw [hsmall]
  have hval : signedOf 4294967296 (n % 4294967296).toNat = n := by
    simp only [signedOf]
    split <;> omega
  rw [hval]

theorem longRead_longWrite {n : Int} (h : int64Ok n) (rest : Bytes) :
    longRead (longWrite n ++ rest) = some (n, rest) := by
  obtain ⟨h1, h2⟩ := h
  rw [longWrite, longRead, takeBytes_append rest (toBytesLE_length 8 _),
    Option.map_some']
  simp only [fromBytesLE_toBytesLE, rawOf]
  have hpow : (256 : Nat) ^ 8 = 18446744073709551616 := by norm_num
  rw [hpow]
  have hm : (0 : Int) ≤ n % 18446744073709551616 := Int.emod_nonneg n (by decide)
  have hm2 : n % 18446744073709551616 < 18446744073709551616 :=
    Int.emod_lt_of_pos n (by decide)
  have hsmall : (n % 18446744073709551616).toNat % 18446744073709551616 =
      (n % 18446744073709551616).toNat :=
    Nat.mod_eq_of_lt (by omega)
  rw [hsmall]
  have hval : signedOf 18446744073709551616 (n % 18446744073709551616).toNat = n := by
    simp only [signedOf]
    split <;> omega
  rw [hval]

theorem bytesRead_bytesWrite {b : Bytes} (h : b.length < 4294967296) (rest : Bytes) :
    bytesRead (bytesWrite b ++ rest) = some (b, rest) := by
  rw [bytesWrite, bytesRead, List.append_assoc,
    takeBytes_append (b ++ rest) (toBytesLE_length 4 _)]
  simp only [Option.bind_eq_bind, Option.some_bind, fromBytesLE_toBytesLE]
  have hpow : (256 : Nat) ^ 4 = 4294967296 := by norm_num
  have hsmall : b.length % 256 ^ 4 = b.length := by
    rw [hpow]; exact Nat.mod_eq_of_lt h
  rw [hsmall, takeBytes_append rest rfl]

theorem strRead_strWrite {b : Bytes} (h : b.length < 4294967296) (rest : Bytes) :
    strRead (strWrite b ++ rest) = some (b, rest) :=
  bytesRead_bytesWrite h rest

theorem boolRead_boolWrite (b : Bool) (rest : Bytes) :
    boolRead (boolWrite b ++ rest) = some (b, rest) := by
  cases b <;>
    rw [boolWrite, boolRead, takeBytes_append rest (toBytesLE_length 4 _)] <;>
    simp [fromBytesLE_toBytesLE]

theorem floatRead_floatWrite {v : Nat} (h : v < 18446744073709551616) (rest : Bytes) :
    floatRead (floatWrite v ++ rest) = some (v, rest) := by
  rw [floatWrite, floatRead, takeBytes_append rest (toBytesLE_length 8 _),
    Option.map_some']
  simp only [fromBytesLE_toBytesLE]
  have hpow : (256 : Nat) ^ 8 = 18446744073709551616 := by norm_num
  rw [hpow, Nat.mod_eq_of_lt h]

end Prim

theorem scFlags_int32Ok (c : SecretChat) : Prim.int32Ok (scFlags c) := by
  unfold scFlags Prim.int32Ok
  split <;> split <;> split <;> split <;> decide

theorem scFlags_bit3 (c : SecretChat) :
    jsBitTest (scFlags c) 3 = intTruthy c.rekeyStep := by
  cases h3 : intTruthy c.rekeyStep <;> cases h4 : intTruthy c.rekeyExchange <;>
    cases h5 : intTruthy c.adminId <;> cases h6 : intTruthy c.ttl <;>
    simp only [scFlags, h3, h4, h5, h6] <;> decide

theorem scFlags_bit4 (c : SecretChat) :
    jsBitTest (scFlags c) 4 = intTruthy c.rekeyExchange := by
  cases h3 : intTruthy c.rekeyStep <;> cases h4 : intTruthy c.rekeyExchange <;>
    cases h5 : intTruthy c.adminId <;> cases h6 : intTruthy c.ttl <;>
    simp only [scFlags, h3, h4, h5, h6] <;> decide

theorem scFlags_bit5 (c : SecretChat) :
    jsBitTest (scFlags c) 5 = intTruthy c.adminId := by
  cases h3 : intTruthy c.rekeyStep <;> cases h4 : intTruthy c.rekeyExchange <;>
    cases h5 : intTruthy c.adminId <;> cases h6 : intTruthy c.ttl <;>
    simp only [scFlags, h3, h4, h5, h6] <;> decide

theorem scFlags_bit6 (c : SecretChat) :
    jsBitTest (scFlags c) 6 = intTruthy c.ttl := by
  cases h3 : intTruthy c.rekeyStep <;> cases h4 : intTruthy c.rekeyExchange <;>
    cases h5 : intTruthy c.adminId <;> cases h6 : intTruthy c.ttl <;>
    simp only [scFlags, h3, h4, h5, h6] <;> decide

theorem optStep32 (o : Option Int) (ho : optInt32Truthy o) (rest : Bytes) :
    (if intTruthy o then
       (Prim.intRead ((if intTruthy o then Prim.intWrite (o.getD 0) else []) ++ rest)).map
         (fun p => (some p.1, p.2))
     else some (none, (if intTruthy o then Prim.intWrite (o.getD 0) else []) ++ rest)) =
    some (o, rest) := by
  cases o with
  | none => simp [intTruthy]
  | some v =>
    obtain ⟨hv32, hvne⟩ := ho
    have ht : intTruthy (some v) = true := by simp [intTruthy, hvne]
    rw [ht, if_pos rfl, if_pos rfl]
    rw [show (some v).getD 0 = v from rfl]
    rw [Prim.intRead_intWrite hv32 rest, Option.map_some']

theorem optStep64 (o : Option Int) (ho : optInt64Truthy o) (rest : Bytes) :
    (if intTruthy o then
       (Prim.longRead ((if intTruthy o then Prim.longWrite (o.getD 0) else []) ++ rest)).map
         (fun p => (some p.1, p.2))
     else some (none, (if intTruthy o then Prim.longWrite (o.getD 0) else []) ++ rest)) =
    some (o, rest) := by
  cases o with
  | none => simp [intTruthy]
  | some v =>
    obtain ⟨hv64, hvne⟩ := ho
    have ht : intTruthy (some v) = true := by simp [intTruthy, hvne]
    rw [ht, if_pos rfl, if_pos rfl]
    rw [show (some v).getD 0 = v from rfl]
    rw [Prim.longRead_longWrite hv64 rest, Option.map_some']

theorem obind_eq_some {x : Option (α × Bytes)} {f : α × Bytes → Option β} {b : β} :
    obind x f = some b ↔ ∃ a, x = some a ∧ f a = some b := by
  cases x <;> simp [obind]

theorem storeGetEntry_set_self (st : Store) (k v : Bytes) (e : Option Nat) :
    storeGetEntry (storeSet st k v e) k = some ⟨k, v, e⟩ := by
  induction st with
  | nil => simp [storeSet, storeGetEntry]
  | cons ent rest ih =>
    simp only [storeSet]
    split
    · simp [storeGetEntry]
    · rename_i hne
      simp [storeGetEntry, hne, ih]

theorem storeGetEntry_set_other (st : Store) {k k' : Bytes} (v : Bytes)
    (e : Option Nat) (h : k' ≠ k) :
    storeGetEntry (storeSet st k v e) k' = storeGetEntry st k' := by
  induction st with
  | nil => simp [storeSet, storeGetEntry, Ne.symm h]
  | cons ent rest ih =>
    simp only [storeSet]
    split
    · rename_i hk
      simp [storeGetEntry, hk, Ne.symm h, h]
    · simp [storeGetEntry, ih]

theorem storeGet_eq_entry (st : Store) (k : Bytes) :
    storeGet st k = (storeGetEntry st k).map Entry.val := by
  induction st with
  | nil => simp [storeGet, storeGetEntry]
  | cons ent rest ih =>
    simp only [storeGet, storeGetEntry]
    split
    · simp
    · exact ih

theorem sessKey_inj {cfg : SessionCfg} {f1 f2 : Bytes}
    (h : sessKey cfg f1 = sessKey cfg f2) : f1 = f2 := by
  unfold sessKey at h
  exact List.append_cancel_left h

theorem isPrefixOf_other_session {D r : Bytes} :
    ∀ s t : Bytes, s ≠ t → D ≠ [] → (∀ d ∈ D, d ∉ s) → (∀ d ∈ D, d ∉ t) →
      (s ++ D).isPrefixOf (t ++ (D ++ r)) = false := by
  intro s
  induction s with
  | nil =>
    intro t hne hD hs ht
    cases t with
    | nil => exact absurd rfl hne
    | cons b t' =>
      cases D with
      | nil => exact absurd rfl hD
      | cons d D' =>
        have hdb : d ≠ b := fun hh => ht d (by simp) (by simp [hh])
        simp [List.isPrefixOf, List.cons_append, hdb]
  | cons a s' ih =>
    intro t hne hD hs ht
    cases t with
    | nil =>
      cases D with
      | nil => exact absurd rfl hD
      | cons d D' =>
        have had : a ≠ d := fun hh => hs d (by simp) (by simp [hh])
        simp [List.isPrefixOf, List.cons_append, had]
    | cons b t' =>
      by_cases hab : a = b
      · subst hab
        have hne' : s' ≠ t' := fun hh => hne (by rw [hh])
        have hs' : ∀ d ∈ D, d ∉ s' := fun d hd hmem => hs d hd (by simp [hmem])
        have ht' : ∀ d ∈ D, d ∉ t' := fun d hd hmem => ht d hd (by simp [hmem])
        simp [List.isPrefixOf, List.cons_append, ih t' hne' hD hs' ht']
      · simp [List.isPrefixOf, List.cons_append, hab]

/-- C1: the peer codec round-trip claim fails on the code.  At the record
`(123, 456, "user", ["alice"], undefined)` the encoder writes the
usernames as a vector (RedisSession.ts line 302) but the versioned
decoder reads that position with the string primitive and pushes a plain
string (line 327), so `decode(encode(r))` does not reproduce `r`. -/
theorem peerCodec_roundTrip_fails_on_usernames : ¬ PeerRoundTrips peerEx1 := by
  decide

/-- C2: for every valid secret chat record, under every combination of
the four optional fields present or absent, decoding the encoding
reproduces the record exactly, and each flag bit is set exactly when the
corresponding optional field was written. -/
theorem secretChat_roundTrip (c : SecretChat) (h : SecretChatValid c) :
    buildSecretChatFromBytes (buildBytesFromSecretChat c) = some c ∧
    jsBitTest (scFlags c) 3 = intTruthy c.rekeyStep ∧
    jsBitTest (scFlags c) 4 = intTruthy c.rekeyExchange ∧
    jsBitTest (scFlags c) 5 = intTruthy c.adminId ∧
    jsBitTest (scFlags c) 6 = intTruthy c.ttl := by
  obtain ⟨hid, hah, hak, hmt, hly, hin, hout, hinx, houtx, htr, hcr, hch, h3, h4, h5, h6⟩ := h
  refine ⟨?_, scFlags_bit3 c, scFlags_bit4 c, scFlags_bit5 c, scFlags_bit6 c⟩
  simp only [buildBytesFromSecretChat, buildSecretChatFromBytes,
    List.flatten_cons, List.flatten_nil,
    Prim.intRead_intWrite (scFlags_int32Ok c),
    Prim.intRead_intWrite hid, Prim.longRead_longWrite hah,
    Prim.boolRead_boolWrite, Prim.bytesRead_bytesWrite hak,
    Prim.intRead_intWrite hmt, Prim.intRead_intWrite hly,
    Prim.intRead_intWrite hin, Prim.intRead_intWrite hout,
    Prim.intRead_intWrite hinx, Prim.intRead_intWrite houtx,
    Prim.intRead_intWrite htr,
    Prim.floatRead_floatWrite hcr, Prim.floatRead_floatWrite hch,
    obind_some, scFlags_bit3, scFlags_bit4, scFlags_bit5, scFlags_bit6,
    optStep32 c.rekeyStep h3, optStep64 c.rekeyExchange h4,
    optStep64 c.adminId h5, optStep32 c.ttl h6]

/-- Witness for `secretChat_roundTrip`: the hypotheses hold at `scEx`
(all four optional fields present) and the round trip is exact there. -/
theorem secretChat_roundTrip_witness :
    SecretChatValid scEx ∧
    (buildSecretChatFromBytes (buildBytesFromSecretChat scEx) = some scEx ∧
     jsBitTest (scFlags scEx) 3 = intTruthy scEx.rekeyStep ∧
     jsBitTest (scFlags scEx) 4 = intTruthy scEx.rekeyExchange ∧
     jsBitTest (scFlags scEx) 5 = intTruthy scEx.adminId ∧
     jsBitTest (scFlags scEx) 6 = intTruthy scEx.ttl) :=
  ⟨by decide, secretChat_roundTrip scEx (by decide)⟩

/-- C3: the spec's case-insensitive lookup example fails on the code.
After `updatePeers [[123, 456, "user", ["alice", "Bob"], undefined]]`,
`getPeerByUsername "bob"` returns nothing: the stored value was encoded
with a username vector but the decoder reads a plain string there, so
the `Array.isArray(peer[3])` guard rejects every freshly stored peer —
and the stored usernames are compared verbatim against the lowercased
query, so `"Bob"` would not match `"bob"` anyway. -/
theorem getPeerByUsername_example_returns_none :
    getPeerByUsername cfgEx (updatePeers cfgEx initialState [peerEx2])
      (strLit "bob") = none := by
  decide

/-- C4: the absent-key claim fails on the code.  The client `get` in
`getPeerById` (line 201) and `getSecretChatById` (line 191) is not
awaited; the truthiness guard sees the promise object and always passes,
and `Buffer.from(promise, 'hex')` throws a `TypeError`, so the point
lookups reject — for every store and id, present or absent. -/
theorem point_lookups_always_reject (cfg : SessionCfg) (st : SessionState)
    (pid cid : Int) :
    getPeerById cfg st pid = Except.error () ∧
    getSecretChatById cfg st cid = Except.error () :=
  ⟨rfl, rfl⟩

/-- C9: encoding a peer whose usernames array is empty produces exactly
the bytes of the record with the usernames field absent, and flag bit 4
is set only when the usernames array is present and non-empty. -/
theorem peer_empty_usernames_encodes_as_absent (r : PeerRecord) :
    buildBytesFromPeer { r with usernames := some [] } =
      buildBytesFromPeer { r with usernames := none } ∧
    (peerFlags r).testBit 4 = usernamesTruthy r.usernames := by
  refine ⟨rfl, ?_⟩
  cases h1 : usernamesTruthy r.usernames <;> cases h2 : strTruthy r.phoneNumber <;>
    simp only [peerFlags, h1, h2] <;> decide

/-- C10: a zero-valued optional field of a secret chat record is treated
as absent by the encoder: its flag bit stays unset and no bytes are
written for it, so the encoding equals that of the record with the field
absent. -/
theorem secretChat_zero_optional_encodes_as_absent (c : SecretChat) :
    (buildBytesFromSecretChat { c with rekeyStep := some 0 } =
       buildBytesFromSecretChat { c with rekeyStep := none } ∧
     jsBitTest (scFlags { c with rekeyStep := some 0 }) 3 = false) ∧
    (buildBytesFromSecretChat { c with rekeyExchange := some 0 } =
       buildBytesFromSecretChat { c with rekeyExchange := none } ∧
     jsBitTest (scFlags { c with rekeyExchange := some 0 }) 4 = false) ∧
    (buildBytesFromSecretChat { c with adminId := some 0 } =
       buildBytesFromSecretChat { c with adminId := none } ∧
     jsBitTest (scFlags { c with adminId := some 0 }) 5 = false) ∧
    (buildBytesFromSecretChat { c with ttl := some 0 } =
       buildBytesFromSecretChat { c with ttl := none } ∧
     jsBitTest (scFlags { c with ttl := some 0 }) 6 = false) := by
  refine ⟨⟨rfl, ?_⟩, ⟨rfl, ?_⟩, ⟨rfl, ?_⟩, ⟨rfl, ?_⟩⟩
  · have := scFlags_bit3 { c with rekeyStep := some 0 }
    simpa [intTruthy] using this
  · have := scFlags_bit4 { c with rekeyExchange := some 0 }
    simpa [intTruthy] using this
  · have := scFlags_bit5 { c with adminId := some 0 }
    simpa [intTruthy] using this
  · have := scFlags_bit6 { c with ttl := some 0 }
    simpa [intTruthy] using this

/-- C5 counterexample: `0` is falsy in JS, yet `setAddress` with
`dcId = 0` and `port = 0` does not normalize either value to its default
(`?? ` only replaces null/undefined), refuting the claim as stated. -/
theorem setAddress_falsy_not_normalized :
    ¬((setAddress cfgEx initialState (some 0) (strLit "1.2.3.4") (some 0) false).dcId = some 2 ∨
      (setAddress cfgEx initialState (some 0) (strLit "1.2.3.4") (some 0) false).port = some 443) := by
  decide

/-- C5 (amended): `setAddress` persists the four scalar fields as
`String(...)` of the arguments as given, each under its session key with
the session TTL, leaving all other keys unchanged, and normalizes `dcId`
to `2` and `port` to `443` in the in-memory state exactly when the
provided value is null or undefined (nullish, not merely falsy). -/
theorem setAddress_spec (cfg : SessionCfg) (st : SessionState) (dcId : Option Int)
    (ip : Bytes) (port : Option Int) (tm : Bool) :
    (setAddress cfg st dcId ip port tm).dcId = some (dcId.getD 2) ∧
    (setAddress cfg st dcId ip port tm).port = some (port.getD 443) ∧
    (setAddress cfg st dcId ip port tm).ip = some ip ∧
    (setAddress cfg st dcId ip port tm).testMode = some tm ∧
    storeGetEntry (setAddress cfg st dcId ip port tm).store (sessKey cfg (strLit "dcId")) =
      some ⟨sessKey cfg (strLit "dcId"), strOfNullInt dcId, cfg.sessionExp⟩ ∧
    storeGetEntry (setAddress cfg st dcId ip port tm).store (sessKey cfg (strLit "ip")) =
      some ⟨sessKey cfg (strLit "ip"), ip, cfg.sessionExp⟩ ∧
    storeGetEntry (setAddress cfg st dcId ip port tm).store (sessKey cfg (strLit "port")) =
      some ⟨sessKey cfg (strLit "port"), strOfNullInt port, cfg.sessionExp⟩ ∧
    storeGetEntry (setAddress cfg st dcId ip port tm).store (sessKey cfg (strLit "testMode")) =
      some ⟨sessKey cfg (strLit "testMode"), strOfBool tm, cfg.sessionExp⟩ ∧
    (∀ k, k ≠ sessKey cfg (strLit "dcId") → k ≠ sessKey cfg (strLit "ip") →
      k ≠ sessKey cfg (strLit "port") → k ≠ sessKey cfg (strLit "testMode") →
      storeGetEntry (setAddress cfg st dcId ip port tm).store k = storeGetEntry st.store k) := by
  have nip : sessKey cfg (strLit "dcId") ≠ sessKey cfg (strLit "ip") :=
    fun hh => absurd (sessKey_inj hh) (by decide)
  have nport : sessKey cfg (strLit "dcId") ≠ sessKey cfg (strLit "port") :=
    fun hh => absurd (sessKey_inj hh) (by decide)
  have ntm : sessKey cfg (strLit "dcId") ≠ sessKey cfg (strLit "testMode") :=
    fun hh => absurd (sessKey_inj hh) (by decide)
  have nip_port : sessKey cfg (strLit "ip") ≠ sessKey cfg (strLit "port") :=
    fun hh => absurd (sessKey_inj hh) (by decide)
  have nip_tm : sessKey cfg (strLit "ip") ≠ sessKey cfg (strLit "testMode") :=
    fun hh => absurd (sessKey_inj hh) (by decide)
  have nport_tm : sessKey cfg (strLit "port") ≠ sessKey cfg (strLit "testMode") :=
    fun hh => absurd (sessKey_inj hh) (by decide)
  refine ⟨rfl, rfl, rfl, rfl, ?_, ?_, ?_, ?_, ?_⟩
  · show storeGetEntry (storeSet (storeSet (storeSet (storeSet st.store
       (sessKey cfg (strLit "dcId")) (strOfNullInt dcId) cfg.sessionExp)
       (sessKey cfg (strLit "ip")) ip cfg.sessionExp)
       (sessKey cfg (strLit "port")) (strOfNullInt port) cfg.sessionExp)
       (sessKey cfg (strLit "testMode")) (strOfBool tm) cfg.sessionExp)
       (sessKey cfg (strLit "dcId")) = _
    rw [storeGetEntry_set_other _ _ _ ntm, storeGetEntry_set_other _ _ _ nport,
      storeGetEntry_set_other _ _ _ nip, storeGetEntry_set_self]
  · rw [show (setAddress cfg st dcId ip port tm).store = storeSet (storeSet (storeSet (storeSet st.store
       (sessKey cfg (strLit "dcId")) (strOfNullInt dcId) cfg.sessionExp)
       (sessKey cfg (strLit "ip")) ip cfg.sessionExp)
       (sessKey cfg (strLit "port")) (strOfNullInt port) cfg.sessionExp)
       (sessKey cfg (strLit "testMode")) (strOfBool tm) cfg.sessionExp from rfl]
    rw [storeGetEntry_set_other _ _ _ nip_tm, storeGetEntry_set_other _ _ _ nip_port,
      storeGetEntry_set_self]
  · rw [show (setAddress cfg st dcId ip port tm).store = storeSet (storeSet (storeSet (storeSet st.store
       (sessKey cfg (strLit "dcId")) (strOfNullInt dcId) cfg.sessionExp)
       (sessKey cfg (strLit "ip")) ip cfg.sessionExp)
       (sessKey cfg (strLit "port")) (strOfNullInt port) cfg.sessionExp)
       (sessKey cfg (strLit "testMode")) (strOfBool tm) cfg.sessionExp from rfl]
    rw [storeGetEntry_set_other _ _ _ nport_tm, storeGetEntry_set_self]
  · rw [show (setAddress cfg st dcId ip port tm).store = storeSet (storeSet (storeSet (storeSet st.store
       (sessKey cfg (strLit "dcId")) (strOfNullInt dcId) cfg.sessionExp)
       (sessKey cfg (strLit "ip")) ip cfg.sessionExp)
       (sessKey cfg (strLit "port")) (strOfNullInt port) cfg.sessionExp)
       (sessKey cfg (strLit "testMode")) (strOfBool tm) cfg.sessionExp from rfl]
    rw [storeGetEntry_set_self]
  · intro k h1 h2 h3 h4
    rw [show (setAddress cfg st dcId ip port tm).store = storeSet (storeSet (storeSet (storeSet st.store
       (sessKey cfg (strLit "dcId")) (strOfNullInt dcId) cfg.sessionExp)
       (sessKey cfg (strLit "ip")) ip cfg.sessionExp)
       (sessKey cfg (strLit "port")) (strOfNullInt port) cfg.sessionExp)
       (sessKey cfg (strLit "testMode")) (strOfBool tm) cfg.sessionExp from rfl]
    rw [storeGetEntry_set_other _ _ _ h4, storeGetEntry_set_other _ _ _ h3,
      storeGetEntry_set_other _ _ _ h2, storeGetEntry_set_other _ _ _ h1]

/-- Witness for `setAddress_spec` at concrete arguments, including the
frame property at an unrelated key. -/
theorem setAddress_spec_witness :
    (setAddress cfgEx initialState (some 5) (strLit "1.2.3.4") (some 80) true).dcId =
      some ((some (5 : Int)).getD 2) ∧
    storeGetEntry (setAddress cfgEx initialState (some 5) (strLit "1.2.3.4") (some 80) true).store
      (sessKey cfgEx (strLit "port")) =
      some ⟨sessKey cfgEx (strLit "port"), strOfNullInt (some 80), cfgEx.sessionExp⟩ ∧
    storeGetEntry (setAddress cfgEx initialState (some 5) (strLit "1.2.3.4") (some 80) true).store
      (strLit "other") = storeGetEntry initialState.store (strLit "other") := by
  obtain ⟨h1, h2, h3, h4, h5, h6, h7, h8, hframe⟩ :=
    setAddress_spec cfgEx initialState (some 5) (strLit "1.2.3.4") (some 80) true
  exact ⟨h1, h7, hframe (strLit "other") (by decide) (by decide) (by decide) (by decide)⟩

/-- C7: `setAuthKey` is a silent no-op — the whole state, store and
in-memory fields alike, is unchanged — when the supplied `dcId` differs
from the stored `_dcId`; when they match it mirrors the key in memory
and persists it hex-encoded under the `authKey` field, touching no other
key. -/
theorem setAuthKey_guard (cfg : SessionCfg) (st : SessionState) (k : Bytes) (d : Int) :
    (st.dcId ≠ some d → setAuthKey cfg st k d = st) ∧
    (st.dcId = some d →
      (setAuthKey cfg st k d).authKey = some k ∧
      storeGetEntry (setAuthKey cfg st k d).store (sessKey cfg (strLit "authKey")) =
        some ⟨sessKey cfg (strLit "authKey"), hexOfBytes k, cfg.sessionExp⟩ ∧
      (∀ k', k' ≠ sessKey cfg (strLit "authKey") →
        storeGetEntry (setAuthKey cfg st k d).store k' = storeGetEntry st.store k')) := by
  constructor
  · intro h
    rw [setAuthKey, if_neg h]
  · intro h
    have hs : setAuthKey cfg st k d =
        { st with connected := true, authKey := some k,
                  store :=
                    storeSet st.store (sessKey cfg (strLit "authKey"))
                      (hexOfBytes k) cfg.sessionExp } := by
      rw [setAuthKey, if_pos h]
      rfl
    rw [hs]
    exact ⟨rfl, storeGetEntry_set_self st.store _ _ _,
      fun k' hk' => storeGetEntry_set_other st.store _ _ hk'⟩

/-- C8: `delete()` keeps exactly the entries whose key does not start
with `sessionName + delimiter`; every key under another session prefix
(a different name not containing the delimiter) survives, and deleting
an empty session leaves an empty store and succeeds. -/
theorem delete_prefix_frame (cfg : SessionCfg) (st : SessionState) :
    (∀ ent : Entry, ent ∈ (deleteSession cfg st).store ↔
      (ent ∈ st.store ∧
        (cfg.sessionName ++ cfg.sessionDelim).isPrefixOf ent.key = false)) ∧
    (∀ (t r v : Bytes) (e : Option Nat), cfg.sessionDelim ≠ [] →
      t ≠ cfg.sessionName →
      (∀ d ∈ cfg.sessionDelim, d ∉ cfg.sessionName) →
      (∀ d ∈ cfg.sessionDelim, d ∉ t) →
      Entry.mk (t ++ (cfg.sessionDelim ++ r)) v e ∈ st.store →
      Entry.mk (t ++ (cfg.sessionDelim ++ r)) v e ∈ (deleteSession cfg st).store) ∧
    (deleteSession cfg { st with store := [] }).store = [] := by
  refine ⟨?_, ?_, rfl⟩
  · intro ent
    simp [deleteSession, connectState, List.mem_filter]
  · intro t r v e hD hne hsname ht hmem
    have hfalse := isPrefixOf_other_session (D := cfg.sessionDelim) (r := r)
      cfg.sessionName t (fun hh => hne hh.symm) hD hsname ht
    simp [deleteSession, connectState, List.mem_filter, hmem, hfalse]

/-- Witness for `setAuthKey_guard`: with stored dcId `5`, writing for
dcId `7` changes nothing; with stored dcId `7` the key is persisted. -/
theorem setAuthKey_guard_witness :
    setAuthKey cfgEx { initialState with dcId := some 5 } [171, 205] 7 =
      { initialState with dcId := some 5 } ∧
    (setAuthKey cfgEx { initialState with dcId := some 7 } [171, 205] 7).authKey =
      some [171, 205] :=
  ⟨(setAuthKey_guard cfgEx { initialState with dcId := some 5 } [171, 205] 7).1
      (by decide),
    ((setAuthKey_guard cfgEx { initialState with dcId := some 7 } [171, 205] 7).2
      (by decide)).1⟩

/-- Witness for `delete_prefix_frame` on a store holding keys of the
sessions `s` and `s2`: the `s2` key survives deleting session `s`, the
`s:`-prefixed key does not, and deleting an empty session yields an
empty store. -/
theorem delete_prefix_frame_witness :
    (⟨strLit "s2" ++ (strLit ":" ++ strLit "b"), [120], none⟩ : Entry) ∈
      (deleteSession cfgEx stW).store ∧
    (⟨strLit "s:a", [121], none⟩ : Entry) ∉ (deleteSession cfgEx stW).store ∧
    (deleteSession cfgEx { stW with store := [] }).store = [] := by
  obtain ⟨ha, hb, hc⟩ := delete_prefix_frame cfgEx stW
  refine ⟨hb (strLit "s2") (strLit "b") [120] none (by decide) (by decide)
      (by decide) (by decide) (by decide), ?_, hc⟩
  intro hmem
  exact absurd ((ha _).mp hmem).2 (by decide)

/-- C6: a buffer whose leading byte is not the version marker `2` is
decoded by the legacy branch, which starts at byte 0 (no marker byte is
consumed) and parses flags, id, accessHash, kind, then on bit 4 pushes
the single optional username wrapped as a one-element array and on bit 5
the optional phone string — so every array in the decoded fields has at
most one element. -/
theorem legacyDecode_single_username (bs : Bytes) (d : DecodedPeer)
    (hhead : bs.head? ≠ some 2) (hdec : buildPeerFromBytes bs = some d) :
    buildPeerFromBytes bs = legacyPeerDecode bs ∧
    ∀ f ∈ d.fields,
      (match f with
       | PeerField.strList l => l.length ≤ 1
       | PeerField.str _ => True) := by
  have hbranch : buildPeerFromBytes bs = legacyPeerDecode bs := by
    rw [buildPeerFromBytes, if_neg hhead]
  refine ⟨hbranch, ?_⟩
  rw [hbranch] at hdec
  rw [legacyPeerDecode] at hdec
  simp only [obind_eq_some] at hdec
  obtain ⟨p0, hp0, p1, hp1, p2, hp2, p3, hp3, q4, hq4, q5, hq5, hfin⟩ := hdec
  have hd : d.fields = q4.1 ++ q5.1 := by
    cases hfin
    rfl
  have hq4shape : q4.1 = [] ∨ ∃ u, q4.1 = [PeerField.strList [u]] := by
    split at hq4
    · obtain ⟨p, hp, hq⟩ := Option.map_eq_some'.mp hq4
      right
      exact ⟨p.1, by rw [← hq]⟩
    · left
      cases hq4
      rfl
  have hq5shape : q5.1 = [] ∨ ∃ u, q5.1 = [PeerField.str u] := by
    split at hq5
    · obtain ⟨p, hp, hq⟩ := Option.map_eq_some'.mp hq5
      right
      exact ⟨p.1, by rw [← hq]⟩
    · left
      cases hq5
      rfl
  intro f hf
  rw [hd] at hf
  rcases List.mem_append.mp hf with hf | hf
  · rcases hq4shape with h | ⟨u, h⟩ <;> rw [h] at hf
    · simp at hf
    · simp at hf
      rw [hf]
      simp
  · rcases hq5shape with h | ⟨u, h⟩ <;> rw [h] at hf
    · simp at hf
    · simp at hf
      rw [hf]
      simp

/-- Witness for `legacyDecode_single_username` at a concrete legacy
buffer carrying one username. -/
theorem legacyDecode_single_username_witness :
    legacyEx.head? ≠ some 2 ∧ buildPeerFromBytes legacyEx = some dLegacyEx ∧
    (buildPeerFromBytes legacyEx = legacyPeerDecode legacyEx ∧
     ∀ f ∈ dLegacyEx.fields,
       (match f with
        | PeerField.strList l => l.length ≤ 1
        | PeerField.str _ => True)) := by
  have h1 : legacyEx.head? ≠ some 2 := by decide
  have h2 : buildPeerFromBytes legacyEx = some dLegacyEx := by decide
  exact ⟨h1, h2, legacyDecode_single_username legacyEx dLegacyEx h1 h2⟩
